import Mathlib

/-!
Shallow embedding of the ccadb_data ingestion pipeline.

The embedding follows the Go package ccadb_data: the two CSV ingestion
functions readAllCertificateRecordsCSV and readIssuerSPKIHashCSV, the
schema resolution over the CSV header, the per-row decoding, the
capability merge keyed by Subject Key Identifier, and the three lookup
functions.  Byte values are modelled as Nat (each below 256), the three
Go maps as functions into Option, and a Go runtime panic (out-of-range
slice index) as the Option value none propagating out of the whole
ingestion run.  Logging is effect-free in the source (the zap logger
only writes messages) and is therefore not part of the state.  The
encoding/csv tokenizer is abstracted to an already tokenized list of
records; the one record-level validation the source configures on it,
the FieldsPerRecord field count enforcement, is modelled explicitly.
-/

/-- One row of the capability table, mirroring the Go struct
caCertCapabilities. -/
structure CaCertCapabilities where
  certificateRecordType : String
  tlsCapable : Bool
  tlsEvCapable : Bool
  smimeCapable : Bool
  codeSigningCapable : Bool
deriving DecidableEq, Repr

/-- The issuer-level record, mirroring the Go struct issuerCapabilities,
which embeds caCertCapabilities. -/
structure IssuerCapabilities where
  caCertCapabilities : CaCertCapabilities
deriving DecidableEq, Repr

/-- The three package-level maps of the Go package, modelled as one state
value.  Keys: 32-byte fingerprints as lists of byte values, and key
identifier strings taken verbatim from the CSV. -/
structure CcadbState where
  caCertCapabilitiesMap : List Nat → Option CaCertCapabilities
  issuerCapabilitiesMap : String → Option IssuerCapabilities
  issuerSPKISHA256Map : String → Option (List Nat)

/-- The maps right after `make`, before any row is processed. -/
def emptyState : CcadbState :=
  { caCertCapabilitiesMap := fun _ => none
    issuerCapabilitiesMap := fun _ => none
    issuerSPKISHA256Map := fun _ => none }

def CCADB_RECORD_ROOT : String := "Root Certificate"

def CCADB_RECORD_INTERMEDIATE : String := "Intermediate Certificate"

/-- crypto/sha256 digest size in bytes. -/
def sha256Size : Nat := 32

/-- The seven required column indexes of the capability table, in the
order of the Go iota block. -/
def IDX_SHA256FINGERPRINT : Fin 7 := 0

def IDX_SUBJECTKEYIDENTIFIER : Fin 7 := 1

def IDX_CERTIFICATERECORDTYPE : Fin 7 := 2

def IDX_TLSCAPABLE : Fin 7 := 3

def IDX_TLSEVCAPABLE : Fin 7 := 4

def IDX_SMIMECAPABLE : Fin 7 := 5

def IDX_CODESIGNINGCAPABLE : Fin 7 := 6

/-- Map assignment m[key] = v for a Go map modelled as a function. -/
def mapUpdate {α β : Type} [DecidableEq α] (m : α → Option β) (key : α) (v : β) :
    α → Option β :=
  fun a => if a = key then some v else m a

/-- The Go builtin copy(dst, src): overwrite a prefix of dst with src,
stopping at the shorter of the two. -/
def copyList : List Nat → List Nat → List Nat
  | dst, [] => dst
  | [], _ => []
  | _ :: ds, s :: ss => s :: copyList ds ss

/-- var a [sha256.Size]byte; copy(a[:], src) — the zero-initialized
32-byte array after copying src into it. -/
def copyToArray32 (src : List Nat) : List Nat :=
  copyList (List.replicate sha256Size 0) src

/-- Value of one hex digit, as in encoding/hex. -/
def fromHexChar (c : Char) : Option Nat :=
  if '0' ≤ c ∧ c ≤ '9' then some (c.toNat - '0'.toNat)
  else if 'a' ≤ c ∧ c ≤ 'f' then some (c.toNat - 'a'.toNat + 10)
  else if 'A' ≤ c ∧ c ≤ 'F' then some (c.toNat - 'A'.toNat + 10)
  else none

/-- Decode a hex character sequence two digits at a time; odd length or a
non-hex character is an error, as in encoding/hex DecodeString. -/
def hexDecodePairs : List Char → Option (List Nat)
  | [] => some []
  | a :: b :: rest =>
    match fromHexChar a, fromHexChar b with
    | some va, some vb =>
      match hexDecodePairs rest with
      | some tail => some ((va * 16 + vb) :: tail)
      | none => none
    | _, _ => none
  | _ => none

/-- encoding/hex DecodeString. -/
def hexDecodeString (s : String) : Option (List Nat) :=
  hexDecodePairs s.data

/-- Value of one character of the standard Base64 alphabet. -/
def base64DigitValue (c : Char) : Option Nat :=
  if 'A' ≤ c ∧ c ≤ 'Z' then some (c.toNat - 'A'.toNat)
  else if 'a' ≤ c ∧ c ≤ 'z' then some (c.toNat - 'a'.toNat + 26)
  else if '0' ≤ c ∧ c ≤ '9' then some (c.toNat - '0'.toNat + 52)
  else if c = '+' then some 62
  else if c = '/' then some 63
  else none

/-- Decode Base64 four characters at a time; padding with = is allowed
only in the final quantum, as in encoding/base64 StdEncoding. -/
def base64DecodeQuanta : List Char → Option (List Nat)
  | [] => some []
  | a :: b :: c :: d :: rest =>
    match base64DigitValue a, base64DigitValue b with
    | some va, some vb =>
      if c = '=' then
        if d = '=' ∧ rest = [] then some [va * 4 + vb / 16]
        else none
      else
        match base64DigitValue c with
        | some vc =>
          if d = '=' then
            if rest = [] then some [va * 4 + vb / 16, (vb % 16) * 16 + vc / 4]
            else none
          else
            match base64DigitValue d with
            | some vd =>
              match base64DecodeQuanta rest with
              | some tail =>
                some ((va * 4 + vb / 16) :: ((vb % 16) * 16 + vc / 4)
                  :: ((vc % 4) * 64 + vd) :: tail)
              | none => none
            | none => none
        | none => none
    | _, _ => none
  | _ => none

/-- encoding/base64 StdEncoding DecodeString: newline characters are
ignored, everything else must be well-formed padded standard Base64. -/
def base64StdDecode (s : String) : Option (List Nat) :=
  base64DecodeQuanta (s.data.filter (fun c => c ≠ '\r' ∧ c ≠ '\n'))

/-- The record-level validation of encoding/csv ReadAll as configured by
the source, applied to already tokenized records: a negative
FieldsPerRecord accepts any field counts, zero locks onto the first
record, and a positive value requires exactly that many fields in every
record; a violation is a parse error (none). -/
def csvReadAll (fieldsPerRecord : Int) (records : List (List String)) :
    Option (List (List String)) :=
  if fieldsPerRecord < 0 then some records
  else
    let n : Nat :=
      if fieldsPerRecord = 0 then (records.headD []).length
      else fieldsPerRecord.toNat
    if records.all (fun r => r.length == n) then some records else none

/-- The seven required header column names of the capability table, in
index order. -/
def requiredNames : List String :=
  ["SHA-256 Fingerprint", "Subject Key Identifier", "Certificate Record Type",
   "TLS Capable", "TLS EV Capable", "S/MIME Capable", "Code Signing Capable"]

/-- Column name expected for a required column index. -/
def headerName (k : Fin 7) : String :=
  requiredNames.getD k.val ""

/-- One step of the header scan: the switch over one header cell.  On a
match the csvIdx slot of the matched column is set to the cell offset
and greatestIdx is raised to it; otherwise nothing changes. -/
def matchHeaderCell (v : String) (i : Nat) (acc : (Fin 7 → Nat) × Nat) :
    (Fin 7 → Nat) × Nat :=
  match (List.finRange 7).find? (fun k => headerName k == v) with
  | some k => (fun j => if j = k then i else acc.1 j, if i > acc.2 then i else acc.2)
  | none => acc

/-- The header scan loop, starting at cell offset i. -/
def scanHeaderFrom (i : Nat) (cells : List String) (acc : (Fin 7 → Nat) × Nat) :
    (Fin 7 → Nat) × Nat :=
  match cells with
  | [] => acc
  | v :: rest => scanHeaderFrom (i + 1) rest (matchHeaderCell v i acc)

/-- The csvIdx array and greatestIdx after scanning the whole header;
both start zero-initialized as in the Go source. -/
def resolveIdx (header : List String) : (Fin 7 → Nat) × Nat :=
  scanHeaderFrom 0 header (fun _ => 0, 0)

/-- Schema resolution: scan the header, then reject the table if any
csvIdx slot is still 0 (the source reuses the zero value of the array as
the not-found marker, so a required column at offset 0 is also
rejected). -/
def findCsvIdx (header : List String) : Option ((Fin 7 → Nat) × Nat) :=
  if (List.finRange 7).any (fun k => (resolveIdx header).1 k == 0) then none
  else some (resolveIdx header)

/-- The caCertCapabilities struct literal built from one data row, field
accesses in source order; an out-of-range access is a Go panic (none). -/
def buildCcc (idx : Fin 7 → Nat) (line : List String) :
    Option CaCertCapabilities :=
  match line.get? (idx IDX_CERTIFICATERECORDTYPE) with
  | none => none
  | some rt =>
    match line.get? (idx IDX_TLSCAPABLE) with
    | none => none
    | some tls =>
      match line.get? (idx IDX_TLSEVCAPABLE) with
      | none => none
      | some tlsEv =>
        match line.get? (idx IDX_SMIMECAPABLE) with
        | none => none
        | some smime =>
          match line.get? (idx IDX_CODESIGNINGCAPABLE) with
          | none => none
          | some codeSigning =>
            some { certificateRecordType := rt
                   tlsCapable := tls == "True"
                   tlsEvCapable := tlsEv == "True"
                   smimeCapable := smime == "True"
                   codeSigningCapable := codeSigning == "True" }

/-- The capability merge of two records sharing a key identifier: Root
record type is sticky, each boolean capability is or-ed in. -/
def mergeCccVal (ic incoming : CaCertCapabilities) : CaCertCapabilities :=
  { certificateRecordType :=
      if incoming.certificateRecordType == CCADB_RECORD_ROOT then CCADB_RECORD_ROOT
      else ic.certificateRecordType
    tlsCapable := ic.tlsCapable || incoming.tlsCapable
    tlsEvCapable := ic.tlsEvCapable || incoming.tlsEvCapable
    smimeCapable := ic.smimeCapable || incoming.smimeCapable
    codeSigningCapable := ic.codeSigningCapable || incoming.codeSigningCapable }

/-- Populate or update the issuer capability map for one decoded row: the
first record for a key identifier seeds the entry, later ones are merged
in place. -/
def mergeIssuer (st : CcadbState) (keyIdentifier : String)
    (ccc : CaCertCapabilities) : CcadbState :=
  match st.issuerCapabilitiesMap keyIdentifier with
  | some ic =>
    let merged : IssuerCapabilities :=
      { caCertCapabilities := mergeCccVal ic.caCertCapabilities ccc }
    { st with issuerCapabilitiesMap :=
        mapUpdate st.issuerCapabilitiesMap keyIdentifier merged }
  | none =>
    let seeded : IssuerCapabilities := { caCertCapabilities := ccc }
    { st with issuerCapabilitiesMap :=
        mapUpdate st.issuerCapabilitiesMap keyIdentifier seeded }

/-- The body of the capability table row loop.  The source first warns
when the line has no field at greatestIdx (a log-only effect) and then
unconditionally indexes the line at every required offset, so a missing
field is an out-of-range panic (none).  A fingerprint that fails hex
decoding skips the row with the state unchanged. -/
def processLine (idx : Fin 7 → Nat) (st : CcadbState) (line : List String) :
    Option CcadbState :=
  match buildCcc idx line with
  | none => none
  | some ccc =>
    match line.get? (idx IDX_SHA256FINGERPRINT) with
    | none => none
    | some fpStr =>
      match hexDecodeString fpStr with
      | none => some st
      | some sha256Slice =>
        let sha256Array := copyToArray32 sha256Slice
        let st1 : CcadbState :=
          { st with caCertCapabilitiesMap :=
              mapUpdate st.caCertCapabilitiesMap sha256Array ccc }
        match line.get? (idx IDX_SUBJECTKEYIDENTIFIER) with
        | none => none
        | some keyIdentifier => some (mergeIssuer st1 keyIdentifier ccc)

/-- The capability table row loop over records[1:]. -/
def processLines (idx : Fin 7 → Nat) : CcadbState → List (List String) →
    Option CcadbState
  | st, [] => some st
  | st, line :: rest =>
    match processLine idx st line with
    | none => none
    | some st1 => processLines idx st1 rest

/-- readAllCertificateRecordsCSV of the source, from the tokenized
records on: parse with FieldsPerRecord -1, return early on an empty
file or a failed schema resolution (state unchanged), otherwise run the
row loop.  greatestIdx only feeds the log-only short-line warning. -/
def readAllCertificateRecordsCSV (records : List (List String))
    (st : CcadbState) : Option CcadbState :=
  match csvReadAll (-1) records with
  | none => some st
  | some [] => some st
  | some (header :: rest) =>
    match findCsvIdx header with
    | none => some st
    | some (csvIdx, _greatestIdx) => processLines csvIdx st rest

/-- The body of the SPKI table row loop: Base64 decode field 1, skip the
row on a decode error or a decoded length other than sha256.Size, else
store the 32-byte value under the field 0 key. -/
def processSpkiLine (st : CcadbState) (line : List String) :
    Option CcadbState :=
  match line.get? 1 with
  | none => none
  | some v =>
    match base64StdDecode v with
    | none => some st
    | some decoded =>
      if decoded.length ≠ sha256Size then some st
      else
        match line.get? 0 with
        | none => none
        | some k =>
          let st1 : CcadbState :=
            { st with issuerSPKISHA256Map :=
                mapUpdate st.issuerSPKISHA256Map k (copyToArray32 decoded) }
          some st1

/-- The SPKI table row loop over records[1:]. -/
def processSpkiLines : CcadbState → List (List String) → Option CcadbState
  | st, [] => some st
  | st, line :: rest =>
    match processSpkiLine st line with
    | none => none
    | some st1 => processSpkiLines st1 rest

/-- readIssuerSPKIHashCSV of the source, from the tokenized records on:
parse with FieldsPerRecord 2 (a parse error leaves the state unchanged),
return early on an empty file, otherwise run the row loop. -/
def readIssuerSPKIHashCSV (records : List (List String)) (st : CcadbState) :
    Option CcadbState :=
  match csvReadAll 2 records with
  | none => some st
  | some [] => some st
  | some (_ :: rest) => processSpkiLines st rest

/-- Lookup by 32-byte fingerprint; a nil Go pointer is none. -/
def GetCACertCapabilitiesBySHA256 (st : CcadbState)
    (sha256Fingerprint : List Nat) : Option CaCertCapabilities :=
  st.caCertCapabilitiesMap sha256Fingerprint

/-- Lookup by key identifier in the issuer capability map. -/
def GetIssuerCapabilitiesByKeyIdentifier (st : CcadbState)
    (b64KeyIdentifier : String) : Option IssuerCapabilities :=
  st.issuerCapabilitiesMap b64KeyIdentifier

/-- Lookup by key identifier in the SPKI hash map: the Go comma-ok map
read returns the zero value and false when the key is absent. -/
def GetIssuerSPKISHA256ByKeyIdentifier (st : CcadbState)
    (b64KeyIdentifier : String) : (List Nat × Bool) :=
  match st.issuerSPKISHA256Map b64KeyIdentifier with
  | some v => (v, true)
  | none => (copyToArray32 [], false)

/-- Position of the last cell equal to name, scanning cells with the
first cell at offset i.  The last occurrence wins, matching the header
scan where a later match overwrites the slot. -/
def lastMatch (name : String) : Nat → List String → Option Nat
  | _, [] => none
  | i, v :: rest =>
    match lastMatch name (i + 1) rest with
    | some j => some j
    | none => if v = name then some i else none

/-- Value attached to the last pair with the given key. -/
def lastMatchVal {α β : Type} [DecidableEq α] (key : α) :
    List (α × β) → Option β
  | [] => none
  | p :: ps =>
    match lastMatchVal key ps with
    | some v => some v
    | none => if p.1 = key then some p.2 else none

/-- The fingerprint-index entry one capability row produces: its
32-byte key and decoded record, or none when the row is skipped for a
bad fingerprint (or would panic before reaching the map insert). -/
def rowFpEntry (idx : Fin 7 → Nat) (line : List String) :
    Option (List Nat × CaCertCapabilities) :=
  match buildCcc idx line with
  | none => none
  | some ccc =>
    match line.get? (idx IDX_SHA256FINGERPRINT) with
    | none => none
    | some fpStr =>
      match hexDecodeString fpStr with
      | none => none
      | some sha256Slice => some (copyToArray32 sha256Slice, ccc)

/-- The key identifier and decoded record of one fully decoded, non
skipped capability row. -/
def rowSkiCcc (idx : Fin 7 → Nat) (line : List String) :
    Option (String × CaCertCapabilities) :=
  match buildCcc idx line with
  | none => none
  | some ccc =>
    match line.get? (idx IDX_SHA256FINGERPRINT) with
    | none => none
    | some fpStr =>
      match hexDecodeString fpStr with
      | none => none
      | some _ =>
        match line.get? (idx IDX_SUBJECTKEYIDENTIFIER) with
        | none => none
        | some keyIdentifier => some (keyIdentifier, ccc)

/-- The record a row contributes to the issuer entry of key identifier
k, if any. -/
def rowKeyContrib (idx : Fin 7 → Nat) (k : String) (line : List String) :
    Option CaCertCapabilities :=
  match rowSkiCcc idx line with
  | some p => if p.1 = k then some p.2 else none
  | none => none

/-- The SPKI-index entry one SPKI table row produces: the key identifier
and 32-byte hash, or none when the row is skipped for bad Base64 or a
wrong decoded length. -/
def spkiRowEntry (line : List String) : Option (String × List Nat) :=
  match line.get? 1 with
  | none => none
  | some v =>
    match base64StdDecode v with
    | none => none
    | some decoded =>
      if decoded.length = sha256Size then
        match line.get? 0 with
        | none => none
        | some k => some (k, copyToArray32 decoded)
      else none

/-- One merge step on an optional issuer entry: seed when absent, merge
when present. -/
def mergeStep (acc : Option CaCertCapabilities) (ccc : CaCertCapabilities) :
    Option CaCertCapabilities :=
  match acc with
  | some ic => some (mergeCccVal ic ccc)
  | none => some ccc

/-- Whether any record in the list has the Root record type. -/
def anyRoot (cs : List CaCertCapabilities) : Bool :=
  cs.any (fun c => c.certificateRecordType == CCADB_RECORD_ROOT)

/-- A header carrying the seven required columns at offsets 1 through 7,
with an unrelated column at offset 0. -/
def hdr17 : List String := "X" :: requiredNames

/-- The column map that hdr17 resolves to. -/
def idx17 : Fin 7 → Nat := fun k => (k : Nat) + 1

/-- Two rows sharing key identifier K1, taken from the worked example of
the specification: an Intermediate row asserting TLS and a Root row
asserting S/MIME. -/
def rowK1a : List String :=
  ["x", "aa", "K1", "Intermediate Certificate", "True", "", "", ""]

def rowK1b : List String :=
  ["x", "bb", "K1", "Root Certificate", "", "", "True", ""]

/-- The merged issuer entry the two K1 rows produce. -/
def icK1 : IssuerCapabilities :=
  ⟨{ certificateRecordType := "Root Certificate"
     tlsCapable := true
     tlsEvCapable := false
     smimeCapable := true
     codeSigningCapable := false }⟩

/-- Two rows with the same fingerprint cc and different content. -/
def rowDupA : List String :=
  ["x", "cc", "K2", "Intermediate Certificate", "True", "", "", ""]

def rowDupB : List String :=
  ["x", "cc", "K3", "Root Certificate", "", "True", "", ""]

/-- A row whose fingerprint field zz is not valid hex. -/
def rowBadHex : List String := ["x", "zz", "K1", "T", "", "", "", ""]

/-- A row whose fingerprint aabb is valid hex of length 2 bytes. -/
def rowShortHex : List String :=
  ["x", "aabb", "K9", "Root Certificate", "True", "", "", ""]

/-- The record rowBadHex decodes before its fingerprint is rejected. -/
def cccBad : CaCertCapabilities :=
  { certificateRecordType := "T", tlsCapable := false, tlsEvCapable := false,
    smimeCapable := false, codeSigningCapable := false }

/-- The record rowShortHex decodes. -/
def cccShort : CaCertCapabilities :=
  { certificateRecordType := "Root Certificate", tlsCapable := true,
    tlsEvCapable := false, smimeCapable := false, codeSigningCapable := false }

/-- A data row with only two fields, fewer than the greatest required
offset of hdr17. -/
def rowShort : List String := ["x", "aa"]

/-- A header holding all seven required names, the fingerprint column at
offset 0. -/
def hdr0 : List String := requiredNames

/-- A fully valid data row laid out for hdr0 (offsets 0 through 6). -/
def rowFull0 : List String :=
  ["aa", "K1", "Root Certificate", "True", "True", "True", "True"]

/-- Standard Base64 of 32 zero bytes. -/
def b64z32 : String := "AAAAAAAAAAAAAAAAAAAAAAAAAAAAAAAAAAAAAAAAAAA="

/-- Standard Base64 of 16 zero bytes. -/
def b64z16 : String := "AAAAAAAAAAAAAAAAAAAAAA=="

/-- A SPKI table whose third record has three fields. -/
def recs5 : List (List String) :=
  [["SKI", "HASH"], ["k1", b64z32], ["a", "b", "c"]]

/-- A well-formed SPKI table with one valid row and one row whose Base64
value decodes to 16 bytes. -/
def recsC8 : List (List String) :=
  [["SKI", "SPKI"], ["k1", b64z32], ["kBad", b64z16]]

/-- A capability table header missing the TLS Capable column. -/
def hdrMissing : List String :=
  ["SHA-256 Fingerprint", "Subject Key Identifier", "Certificate Record Type",
   "TLS EV Capable", "S/MIME Capable", "Code Signing Capable"]

/-! Helper lemmas about the embedding. -/

lemma csvReadAll_neg_one (records : List (List String)) :
    csvReadAll (-1) records = some records := by
  unfold csvReadAll
  rw [if_pos]
  decide

lemma readAll_cons (header : List String) (rest : List (List String)) (idx : Fin 7 → Nat)
    (g : Nat) (st : CcadbState) (hidx : findCsvIdx header = some (idx, g)) :
    readAllCertificateRecordsCSV (header :: rest) st = processLines idx st rest := by
  unfold readAllCertificateRecordsCSV
  rw [csvReadAll_neg_one]
  change (match findCsvIdx header with
    | none => some st
    | some (csvIdx, _g) => processLines csvIdx st rest) = processLines idx st rest
  rw [hidx]

lemma readAll_schema_fail (header : List String) (rest : List (List String)) (st : CcadbState)
    (hidx : findCsvIdx header = none) :
    readAllCertificateRecordsCSV (header :: rest) st = some st := by
  unfold readAllCertificateRecordsCSV
  rw [csvReadAll_neg_one]
  change (match findCsvIdx header with
    | none => some st
    | some (csvIdx, _g) => processLines csvIdx st rest) = some st
  rw [hidx]

lemma mergeIssuer_caCert (st : CcadbState) (ski : String)
    (ccc : CaCertCapabilities) :
    (mergeIssuer st ski ccc).caCertCapabilitiesMap = st.caCertCapabilitiesMap := by
  unfold mergeIssuer
  cases st.issuerCapabilitiesMap ski <;> rfl

lemma mergeIssuer_issuer (st : CcadbState) (ski : String)
    (ccc : CaCertCapabilities) (k : String) :
    (mergeIssuer st ski ccc).issuerCapabilitiesMap k =
      if k = ski then
        Option.map IssuerCapabilities.mk
          (mergeStep
            (Option.map IssuerCapabilities.caCertCapabilities
              (st.issuerCapabilitiesMap ski)) ccc)
      else st.issuerCapabilitiesMap k := by
  unfold mergeIssuer mergeStep mapUpdate
  cases h : st.issuerCapabilitiesMap ski <;> simp [h]

lemma headerName_inj : ∀ k1 k2 : Fin 7, headerName k1 = headerName k2 → k1 = k2 := by
  decide

lemma matchHeaderCell_fst (v : String) (i : Nat) (acc : (Fin 7 → Nat) × Nat)
    (k : Fin 7) :
    (matchHeaderCell v i acc).1 k = if v = headerName k then i else acc.1 k := by
  unfold matchHeaderCell
  cases hfind : (List.finRange 7).find? (fun j => headerName j == v) with
  | none =>
    have hv : ¬ v = headerName k := by
      intro hv
      have hall := List.find?_eq_none.mp hfind k (List.mem_finRange k)
      simp [hv] at hall
    simp [hv]
  | some j =>
    have hj : headerName j = v := by
      have := List.find?_some hfind
      simpa using this
    by_cases hvk : v = headerName k
    · have hjk : j = k := headerName_inj j k (hj.trans hvk)
      subst hjk
      simp [hvk]
    · have hjk : ¬ j = k := fun he => hvk ((he ▸ hj).symm)
      have hkj : ¬ k = j := fun he => hjk he.symm
      simp [hkj, hvk]

lemma scanHeaderFrom_fst (k : Fin 7) (cells : List String) :
    ∀ (i : Nat) (acc : (Fin 7 → Nat) × Nat),
      (scanHeaderFrom i cells acc).1 k =
        match lastMatch (headerName k) i cells with
        | some j => j
        | none => acc.1 k := by
  induction cells with
  | nil => intro i acc; rfl
  | cons v rest ih =>
    intro i acc
    rw [scanHeaderFrom]
    rw [ih (i + 1) (matchHeaderCell v i acc)]
    rw [matchHeaderCell_fst]
    rw [lastMatch]
    cases lastMatch (headerName k) (i + 1) rest with
    | some j => simp
    | none =>
      by_cases hv : v = headerName k
      · simp [hv]
      · simp [hv]

lemma lastMatch_none (name : String) (cells : List String)
    (habs : ¬ name ∈ cells) : ∀ i, lastMatch name i cells = none := by
  induction cells with
  | nil => intro i; rfl
  | cons v rest ih =>
    intro i
    rw [lastMatch]
    have hv : ¬ v = name := fun he => habs (he ▸ List.mem_cons_self v rest)
    have hrest : ¬ name ∈ rest := fun hm => habs (List.mem_cons_of_mem v hm)
    rw [ih hrest (i + 1)]
    simp [hv]

lemma resolveIdx_slot (header : List String) (k : Fin 7) :
    (resolveIdx header).1 k = (lastMatch (headerName k) 0 header).getD 0 := by
  unfold resolveIdx
  rw [scanHeaderFrom_fst]
  cases lastMatch (headerName k) 0 header <;> rfl

lemma findCsvIdx_ok (header : List String)
    (h : ∀ k : Fin 7, (lastMatch (headerName k) 0 header).getD 0 ≠ 0) :
    findCsvIdx header = some (resolveIdx header) := by
  unfold findCsvIdx
  rw [if_neg]
  intro hc
  rw [List.any_eq_true] at hc
  obtain ⟨k, _, hk0⟩ := hc
  have hk : (resolveIdx header).1 k = 0 := by simpa using hk0
  rw [resolveIdx_slot] at hk
  exact h k hk

lemma findCsvIdx_missing (header : List String) (k : Fin 7)
    (habs : ¬ headerName k ∈ header) : findCsvIdx header = none := by
  unfold findCsvIdx
  rw [if_pos]
  rw [List.any_eq_true]
  refine ⟨k, List.mem_finRange k, ?_⟩
  have hk : (resolveIdx header).1 k = 0 := by
    rw [resolveIdx_slot, lastMatch_none (headerName k) header habs 0]
    rfl
  simp [hk]

lemma copyList_replicate_zero (n : Nat) :
    ∀ src : List Nat,
      copyList (List.replicate n 0) src =
        src.take n ++ List.replicate (n - src.length) 0 := by
  induction n with
  | zero =>
    intro src
    cases src with
    | nil => rfl
    | cons s ss => simp [copyList]
  | succ m ih =>
    intro src
    cases src with
    | nil => rfl
    | cons s ss =>
      rw [List.replicate_succ]
      rw [copyList]
      rw [ih ss]
      rw [List.take_succ_cons]
      simp [Nat.succ_sub_succ]

lemma copyToArray32_eq (src : List Nat) :
    copyToArray32 src = src.take 32 ++ List.replicate (32 - src.length) 0 := by
  unfold copyToArray32 sha256Size
  exact copyList_replicate_zero 32 src

lemma foldl_mergeStep_some (cs : List CaCertCapabilities) :
    ∀ e : CaCertCapabilities,
      cs.foldl mergeStep (some e) = some
        { certificateRecordType :=
            if anyRoot cs then CCADB_RECORD_ROOT else e.certificateRecordType
          tlsCapable := e.tlsCapable || cs.any (fun c => c.tlsCapable)
          tlsEvCapable := e.tlsEvCapable || cs.any (fun c => c.tlsEvCapable)
          smimeCapable := e.smimeCapable || cs.any (fun c => c.smimeCapable)
          codeSigningCapable :=
            e.codeSigningCapable || cs.any (fun c => c.codeSigningCapable) } := by
  induction cs with
  | nil =>
    intro e
    simp [anyRoot]
  | cons c cs ih =>
    intro e
    rw [List.foldl_cons]
    show cs.foldl mergeStep (some (mergeCccVal e c)) = _
    rw [ih (mergeCccVal e c)]
    unfold mergeCccVal anyRoot
    congr 1
    by_cases hc : c.certificateRecordType == CCADB_RECORD_ROOT
    · simp [hc, Bool.or_assoc]
    · simp [hc, Bool.or_assoc]

lemma processLines_caCert (idx : Fin 7 → Nat) (K : List Nat) :
    ∀ (lines : List (List String)) (st st' : CcadbState),
      processLines idx st lines = some st' →
      st'.caCertCapabilitiesMap K =
        match lastMatchVal K (lines.filterMap (rowFpEntry idx)) with
        | some v => some v
        | none => st.caCertCapabilitiesMap K := by
  intro lines
  induction lines with
  | nil =>
    intro st st' h
    simp only [processLines] at h
    obtain rfl := Option.some.inj h
    simp [lastMatchVal]
  | cons line rest ih =>
    intro st st' h
    simp only [processLines] at h
    cases hpl : processLine idx st line with
    | none => rw [hpl] at h; simp at h
    | some st1 =>
      rw [hpl] at h
      simp only at h
      have ihh := ih st1 st' h
      unfold processLine at hpl
      cases hb : buildCcc idx line with
      | none => rw [hb] at hpl; simp at hpl
      | some ccc =>
        rw [hb] at hpl
        simp only at hpl
        cases hf : line.get? (idx IDX_SHA256FINGERPRINT) with
        | none => rw [hf] at hpl; simp at hpl
        | some fpStr =>
          rw [hf] at hpl
          simp only at hpl
          cases hh : hexDecodeString fpStr with
          | none =>
            rw [hh] at hpl
            simp only at hpl
            obtain rfl := Option.some.inj hpl
            have hre : rowFpEntry idx line = none := by
              unfold rowFpEntry
              simp only [hb, hf, hh]
            rw [List.filterMap_cons_none hre]
            exact ihh
          | some bytes =>
            rw [hh] at hpl
            simp only at hpl
            cases hs : line.get? (idx IDX_SUBJECTKEYIDENTIFIER) with
            | none => rw [hs] at hpl; simp at hpl
            | some ski =>
              rw [hs] at hpl
              simp only at hpl
              obtain rfl := Option.some.inj hpl
              have hre : rowFpEntry idx line = some (copyToArray32 bytes, ccc) := by
                unfold rowFpEntry
                simp only [hb, hf, hh]
              rw [List.filterMap_cons_some hre]
              rw [ihh]
              have hcc :
                  (mergeIssuer
                    { st with caCertCapabilitiesMap :=
                        mapUpdate st.caCertCapabilitiesMap (copyToArray32 bytes) ccc }
                    ski ccc).caCertCapabilitiesMap =
                    mapUpdate st.caCertCapabilitiesMap (copyToArray32 bytes) ccc := by
                rw [mergeIssuer_caCert]
              rw [hcc]
              rw [lastMatchVal]
              cases lastMatchVal K (rest.filterMap (rowFpEntry idx)) with
              | some v => simp
              | none =>
                by_cases hK : K = copyToArray32 bytes
                · subst hK
                  simp [mapUpdate]
                · have hK2 : ¬ copyToArray32 bytes = K := fun e => hK e.symm
                  simp [mapUpdate, hK, hK2]

lemma processLines_issuer (idx : Fin 7 → Nat) (k : String) :
    ∀ (lines : List (List String)) (st st' : CcadbState),
      processLines idx st lines = some st' →
      st'.issuerCapabilitiesMap k =
        Option.map IssuerCapabilities.mk
          ((lines.filterMap (rowKeyContrib idx k)).foldl mergeStep
            (Option.map IssuerCapabilities.caCertCapabilities
              (st.issuerCapabilitiesMap k))) := by
  intro lines
  induction lines with
  | nil =>
    intro st st' h
    simp only [processLines] at h
    obtain rfl := Option.some.inj h
    cases st.issuerCapabilitiesMap k <;> simp
  | cons line rest ih =>
    intro st st' h
    simp only [processLines] at h
    cases hpl : processLine idx st line with
    | none => rw [hpl] at h; simp at h
    | some st1 =>
      rw [hpl] at h
      simp only at h
      have ihh := ih st1 st' h
      unfold processLine at hpl
      cases hb : buildCcc idx line with
      | none => rw [hb] at hpl; simp at hpl
      | some ccc =>
        rw [hb] at hpl
        simp only at hpl
        cases hf : line.get? (idx IDX_SHA256FINGERPRINT) with
        | none => rw [hf] at hpl; simp at hpl
        | some fpStr =>
          rw [hf] at hpl
          simp only at hpl
          cases hh : hexDecodeString fpStr with
          | none =>
            rw [hh] at hpl
            simp only at hpl
            obtain rfl := Option.some.inj hpl
            have hrc : rowKeyContrib idx k line = none := by
              unfold rowKeyContrib rowSkiCcc
              simp only [hb, hf, hh]
            rw [List.filterMap_cons_none hrc]
            exact ihh
          | some bytes =>
            rw [hh] at hpl
            simp only at hpl
            cases hs : line.get? (idx IDX_SUBJECTKEYIDENTIFIER) with
            | none => rw [hs] at hpl; simp at hpl
            | some ski =>
              rw [hs] at hpl
              simp only at hpl
              obtain rfl := Option.some.inj hpl
              have hsk : rowSkiCcc idx line = some (ski, ccc) := by
                unfold rowSkiCcc
                simp only [hb, hf, hh, hs]
              by_cases hks : ski = k
              · subst hks
                have hrc : rowKeyContrib idx ski line = some ccc := by
                  unfold rowKeyContrib
                  rw [hsk]
                  simp
                rw [List.filterMap_cons_some hrc, List.foldl_cons]
                rw [ihh]
                congr 1
                congr 1
                rw [mergeIssuer_issuer]
                simp only [if_pos rfl]
                cases mergeStep
                    (Option.map IssuerCapabilities.caCertCapabilities
                      (st.issuerCapabilitiesMap ski)) ccc <;> simp
              · have hrc : rowKeyContrib idx k line = none := by
                  unfold rowKeyContrib
                  rw [hsk]
                  simp [hks]
                rw [List.filterMap_cons_none hrc]
                rw [ihh]
                have hkski : ¬ k = ski := fun e => hks e.symm
                have h1 :
                    (mergeIssuer
                      { st with caCertCapabilitiesMap :=
                          mapUpdate st.caCertCapabilitiesMap (copyToArray32 bytes) ccc }
                      ski ccc).issuerCapabilitiesMap k = st.issuerCapabilitiesMap k := by
                  rw [mergeIssuer_issuer]
                  simp [hkski]
                rw [h1]

lemma processSpkiLines_spki (k : String) :
    ∀ (lines : List (List String)) (st st' : CcadbState),
      processSpkiLines st lines = some st' →
      st'.issuerSPKISHA256Map k =
        match lastMatchVal k (lines.filterMap spkiRowEntry) with
        | some v => some v
        | none => st.issuerSPKISHA256Map k := by
  intro lines
  induction lines with
  | nil =>
    intro st st' h
    simp only [processSpkiLines] at h
    obtain rfl := Option.some.inj h
    simp [lastMatchVal]
  | cons line rest ih =>
    intro st st' h
    simp only [processSpkiLines] at h
    cases hpl : processSpkiLine st line with
    | none => rw [hpl] at h; simp at h
    | some st1 =>
      rw [hpl] at h
      simp only at h
      have ihh := ih st1 st' h
      unfold processSpkiLine at hpl
      cases h1 : line.get? 1 with
      | none => rw [h1] at hpl; simp at hpl
      | some v =>
        rw [h1] at hpl
        simp only at hpl
        cases hd : base64StdDecode v with
        | none =>
          rw [hd] at hpl
          simp only at hpl
          obtain rfl := Option.some.inj hpl
          have hre : spkiRowEntry line = none := by
            unfold spkiRowEntry
            simp only [h1, hd]
          rw [List.filterMap_cons_none hre]
          exact ihh
        | some decoded =>
          rw [hd] at hpl
          simp only at hpl
          by_cases hlen : decoded.length = sha256Size
          · rw [if_neg (not_not_intro hlen)] at hpl
            cases h0 : line.get? 0 with
            | none => rw [h0] at hpl; simp at hpl
            | some kk =>
              rw [h0] at hpl
              simp only at hpl
              obtain rfl := Option.some.inj hpl
              have hre : spkiRowEntry line = some (kk, copyToArray32 decoded) := by
                unfold spkiRowEntry
                simp only [h1, hd, h0, if_pos hlen]
              rw [List.filterMap_cons_some hre]
              rw [ihh]
              rw [lastMatchVal]
              cases lastMatchVal k (rest.filterMap spkiRowEntry) with
              | some w => simp
              | none =>
                by_cases hK : k = kk
                · subst hK
                  simp [mapUpdate]
                · have hK2 : ¬ kk = k := fun e => hK e.symm
                  simp [mapUpdate, hK, hK2]
          · rw [if_pos hlen] at hpl
            obtain rfl := Option.some.inj hpl
            have hre : spkiRowEntry line = none := by
              unfold spkiRowEntry
              simp only [h1, hd, if_neg hlen]
            rw [List.filterMap_cons_none hre]
            exact ihh

lemma processSpkiLines_isSome (lines : List (List String)) :
    ∀ st : CcadbState, (∀ l ∈ lines, l.length = 2) →
      (processSpkiLines st lines).isSome = true := by
  induction lines with
  | nil => intro st _; rfl
  | cons line rest ih =>
    intro st hlen
    obtain ⟨a, b, rfl⟩ := List.length_eq_two.mp (hlen line (List.mem_cons_self line rest))
    have hrest : ∀ l ∈ rest, l.length = 2 :=
      fun l hl => hlen l (List.mem_cons_of_mem _ hl)
    simp only [processSpkiLines]
    unfold processSpkiLine
    simp only [List.get?]
    cases hd : base64StdDecode b with
    | none => exact ih st hrest
    | some decoded =>
      by_cases hl : decoded.length = sha256Size
      · have hc : ¬ decoded.length ≠ sha256Size := not_not_intro hl
        simp only [if_neg hc]
        exact ih _ hrest
      · simp only [if_pos hl]
        exact ih st hrest

/-- C1: the claim says a capability-table data row with fewer fields than
the highest required column offset is warned about, decoded best-effort,
and never terminates the process.  In the code the warning is followed by
unconditional indexing at every required offset, so such a row is an
out-of-range slice access, a runtime panic: on the concrete table below,
whose data row has 2 fields while the greatest required offset is 7,
ingestion ends in the panic value none instead of completing. -/
theorem c1_short_row_aborts_process :
    rowShort.length ≤ (resolveIdx hdr17).2 ∧
    (readAllCertificateRecordsCSV (hdr17 :: [rowShort]) emptyState).isSome = false := by
  decide

/-- C2 (counterexample): a header that holds all seven required column
names, with the fingerprint column at offset 0, is rejected by schema
resolution, and a following fully valid data row is not ingested — the
claim asserts resolution succeeds on every such header. -/
theorem c2_offset_zero_counterexample :
    (requiredNames.all (fun n => hdr0.contains n)) = true ∧
    (findCsvIdx hdr0).isSome = false ∧
    (readAllCertificateRecordsCSV (hdr0 :: [rowFull0]) emptyState).bind
      (fun st => st.caCertCapabilitiesMap (copyToArray32 [170])) = none := by
  decide

/-- C2 (amended): schema resolution succeeds, and row ingestion proceeds
with the resolved offsets, for every header in which each of the seven
required column names has its last occurrence at a column offset greater
than 0; a required column whose (last) occurrence sits at offset 0 is
indistinguishable from an absent one and the table is rejected. -/
theorem c2_schema_resolution_amended (header : List String)
    (h : ∀ k : Fin 7, (lastMatch (headerName k) 0 header).getD 0 ≠ 0) :
    (findCsvIdx header).isSome = true ∧
    ∀ (st : CcadbState) (rows : List (List String)),
      readAllCertificateRecordsCSV (header :: rows) st =
        processLines (resolveIdx header).1 st rows := by
  have hfind := findCsvIdx_ok header h
  constructor
  · rw [hfind]
    rfl
  · intro st rows
    exact readAll_cons header rows (resolveIdx header).1 (resolveIdx header).2 st
      (by rw [hfind])

theorem c2_schema_resolution_amended_witness :
    (∀ k : Fin 7, (lastMatch (headerName k) 0 hdr17).getD 0 ≠ 0) ∧
    (findCsvIdx hdr17).isSome = true :=
  ⟨by decide, (c2_schema_resolution_amended hdr17 (by decide)).1⟩

/-- C9: a capability-table header lacking at least one of the seven
required column names makes schema resolution fail before any data row
is processed, ingestion returns with the state unchanged (no crash), the
two table-1 indexes stay empty, and every lookup on them is a miss. -/
theorem c9_missing_header_empty_indexes (header : List String)
    (rest : List (List String)) (name : String)
    (hreq : name ∈ requiredNames) (habs : ¬ name ∈ header) :
    (findCsvIdx header).isSome = false ∧
    readAllCertificateRecordsCSV (header :: rest) emptyState = some emptyState ∧
    (∀ fp, GetCACertCapabilitiesBySHA256 emptyState fp = none) ∧
    (∀ k, GetIssuerCapabilitiesByKeyIdentifier emptyState k = none) := by
  have hk : ∃ k : Fin 7, headerName k = name := by
    simp only [requiredNames, List.mem_cons, List.not_mem_nil, or_false] at hreq
    rcases hreq with rfl | rfl | rfl | rfl | rfl | rfl | rfl
    · exact ⟨0, rfl⟩
    · exact ⟨1, rfl⟩
    · exact ⟨2, rfl⟩
    · exact ⟨3, rfl⟩
    · exact ⟨4, rfl⟩
    · exact ⟨5, rfl⟩
    · exact ⟨6, rfl⟩
  obtain ⟨k, hkname⟩ := hk
  have hfind : findCsvIdx header = none :=
    findCsvIdx_missing header k (by rw [hkname]; exact habs)
  refine ⟨by rw [hfind]; rfl, readAll_schema_fail header rest emptyState hfind,
    fun fp => rfl, fun k2 => rfl⟩

theorem c9_missing_header_empty_indexes_witness :
    ("TLS Capable" ∈ requiredNames ∧ ¬ "TLS Capable" ∈ hdrMissing) ∧
    readAllCertificateRecordsCSV (hdrMissing :: [rowFull0]) emptyState =
      some emptyState :=
  ⟨⟨by decide, by decide⟩,
   (c9_missing_header_empty_indexes hdrMissing [rowFull0] "TLS Capable"
     (by decide) (by decide)).2.1⟩

lemma resolveIdx_hdr17 : resolveIdx hdr17 = (idx17, 7) := by
  have h1 : (resolveIdx hdr17).1 = idx17 := by
    funext k
    fin_cases k <;> decide
  have h2 : (resolveIdx hdr17).2 = 7 := by decide
  calc resolveIdx hdr17 = ((resolveIdx hdr17).1, (resolveIdx hdr17).2) := rfl
    _ = (idx17, 7) := by rw [h1, h2]

lemma findCsvIdx_hdr17 : findCsvIdx hdr17 = some (idx17, 7) := by
  have h := findCsvIdx_ok hdr17 (by decide)
  rw [resolveIdx_hdr17] at h
  exact h

/-- C3: after a successful ingestion of the capability table, each of the
four boolean capabilities of the merged issuer entry of a key identifier
equals the boolean or, over every non-skipped row bearing that key
identifier, of the flag that row decoded — hence it is true iff at least
one such row decoded it true, independent of row order. -/
theorem c3_issuer_flags_or (header : List String) (rest : List (List String))
    (idx : Fin 7 → Nat) (g : Nat) (k : String) (ic : IssuerCapabilities)
    (hidx : findCsvIdx header = some (idx, g))
    (hic : (readAllCertificateRecordsCSV (header :: rest) emptyState).bind
      (fun st => st.issuerCapabilitiesMap k) = some ic) :
    ic.caCertCapabilities.tlsCapable =
      (rest.filterMap (rowKeyContrib idx k)).any (fun c => c.tlsCapable) ∧
    ic.caCertCapabilities.tlsEvCapable =
      (rest.filterMap (rowKeyContrib idx k)).any (fun c => c.tlsEvCapable) ∧
    ic.caCertCapabilities.smimeCapable =
      (rest.filterMap (rowKeyContrib idx k)).any (fun c => c.smimeCapable) ∧
    ic.caCertCapabilities.codeSigningCapable =
      (rest.filterMap (rowKeyContrib idx k)).any (fun c => c.codeSigningCapable) := by
  rw [readAll_cons header rest idx g emptyState hidx] at hic
  cases hrun : processLines idx emptyState rest with
  | none => rw [hrun] at hic; simp at hic
  | some st' =>
    rw [hrun] at hic
    have hic2 : st'.issuerCapabilitiesMap k = some ic := hic
    have hchar := processLines_issuer idx k rest emptyState st' hrun
    rw [hic2] at hchar
    cases hcs : rest.filterMap (rowKeyContrib idx k) with
    | nil =>
      rw [hcs] at hchar
      have he : emptyState.issuerCapabilitiesMap k = none := rfl
      rw [he] at hchar
      simp at hchar
    | cons c0 cs =>
      rw [hcs] at hchar
      rw [List.foldl_cons] at hchar
      have h0 : mergeStep (Option.map IssuerCapabilities.caCertCapabilities
          (emptyState.issuerCapabilitiesMap k)) c0 = some c0 := rfl
      rw [h0] at hchar
      rw [foldl_mergeStep_some cs c0] at hchar
      have hicv := Option.some.inj hchar
      subst hicv
      refine ⟨?_, ?_, ?_, ?_⟩ <;> simp [List.any_cons]

theorem c3_issuer_flags_or_witness :
    ((findCsvIdx hdr17 = some (idx17, 7)) ∧
     (readAllCertificateRecordsCSV (hdr17 :: [rowK1a, rowK1b]) emptyState).bind
       (fun st => st.issuerCapabilitiesMap "K1") = some icK1) ∧
    (icK1.caCertCapabilities.tlsCapable =
      ([rowK1a, rowK1b].filterMap (rowKeyContrib idx17 "K1")).any
        (fun c => c.tlsCapable) ∧
    icK1.caCertCapabilities.tlsEvCapable =
      ([rowK1a, rowK1b].filterMap (rowKeyContrib idx17 "K1")).any
        (fun c => c.tlsEvCapable) ∧
    icK1.caCertCapabilities.smimeCapable =
      ([rowK1a, rowK1b].filterMap (rowKeyContrib idx17 "K1")).any
        (fun c => c.smimeCapable) ∧
    icK1.caCertCapabilities.codeSigningCapable =
      ([rowK1a, rowK1b].filterMap (rowKeyContrib idx17 "K1")).any
        (fun c => c.codeSigningCapable)) :=
  ⟨⟨findCsvIdx_hdr17, by decide⟩,
   c3_issuer_flags_or hdr17 [rowK1a, rowK1b] idx17 7 "K1" icK1
     findCsvIdx_hdr17 (by decide)⟩

/-- C4: after a successful ingestion of the capability table, the merged
issuer entry of a key identifier has record type Root Certificate iff
some non-skipped row bearing that key identifier has record type exactly
Root Certificate, and otherwise carries the record type of the first
such row, independent of arrival order. -/
theorem c4_root_sticky (header : List String) (rest : List (List String))
    (idx : Fin 7 → Nat) (g : Nat) (k : String) (ic : IssuerCapabilities)
    (hidx : findCsvIdx header = some (idx, g))
    (hic : (readAllCertificateRecordsCSV (header :: rest) emptyState).bind
      (fun st => st.issuerCapabilitiesMap k) = some ic) :
    ∃ c0 cs, rest.filterMap (rowKeyContrib idx k) = c0 :: cs ∧
      ic.caCertCapabilities.certificateRecordType =
        (if anyRoot (c0 :: cs) then CCADB_RECORD_ROOT
         else c0.certificateRecordType) := by
  rw [readAll_cons header rest idx g emptyState hidx] at hic
  cases hrun : processLines idx emptyState rest with
  | none => rw [hrun] at hic; simp at hic
  | some st' =>
    rw [hrun] at hic
    have hic2 : st'.issuerCapabilitiesMap k = some ic := hic
    have hchar := processLines_issuer idx k rest emptyState st' hrun
    rw [hic2] at hchar
    cases hcs : rest.filterMap (rowKeyContrib idx k) with
    | nil =>
      rw [hcs] at hchar
      have he : emptyState.issuerCapabilitiesMap k = none := rfl
      rw [he] at hchar
      simp at hchar
    | cons c0 cs =>
      rw [hcs] at hchar
      rw [List.foldl_cons] at hchar
      have h0 : mergeStep (Option.map IssuerCapabilities.caCertCapabilities
          (emptyState.issuerCapabilitiesMap k)) c0 = some c0 := rfl
      rw [h0] at hchar
      rw [foldl_mergeStep_some cs c0] at hchar
      have hicv := Option.some.inj hchar
      have hty2 : ic.caCertCapabilities.certificateRecordType =
          (if anyRoot cs then CCADB_RECORD_ROOT
           else c0.certificateRecordType) := by
        rw [hicv]
      refine ⟨c0, cs, rfl, ?_⟩
      rw [hty2]
      by_cases hc0 : c0.certificateRecordType == CCADB_RECORD_ROOT
      · have hty : c0.certificateRecordType = CCADB_RECORD_ROOT := eq_of_beq hc0
        have hany : anyRoot (c0 :: cs) = true := by
          simp [anyRoot, List.any_cons, hc0]
        rw [hany]
        cases hacs : anyRoot cs <;> simp [hacs, hty]
      · have hany : anyRoot (c0 :: cs) = anyRoot cs := by
          simp [anyRoot, List.any_cons, hc0]
        rw [hany]

theorem c4_root_sticky_witness :
    ((findCsvIdx hdr17 = some (idx17, 7)) ∧
     (readAllCertificateRecordsCSV (hdr17 :: [rowK1a, rowK1b]) emptyState).bind
       (fun st => st.issuerCapabilitiesMap "K1") = some icK1) ∧
    (∃ c0 cs, [rowK1a, rowK1b].filterMap (rowKeyContrib idx17 "K1") = c0 :: cs ∧
      icK1.caCertCapabilities.certificateRecordType =
        (if anyRoot (c0 :: cs) then CCADB_RECORD_ROOT
         else c0.certificateRecordType)) :=
  ⟨⟨findCsvIdx_hdr17, by decide⟩,
   c4_root_sticky hdr17 [rowK1a, rowK1b] idx17 7 "K1" icK1
     findCsvIdx_hdr17 (by decide)⟩

/-- C7: after a successful ingestion of the capability table, the
fingerprint index at any 32-byte key holds exactly the decoded record of
the last non-skipped row whose (padded or truncated) decoded fingerprint
equals that key, and nothing when no such row exists — later duplicate
fingerprints overwrite earlier ones with no merging and no error. -/
theorem c7_fingerprint_last_row_wins (header : List String)
    (rest : List (List String)) (idx : Fin 7 → Nat) (g : Nat) (K : List Nat)
    (hidx : findCsvIdx header = some (idx, g))
    (hrun : (readAllCertificateRecordsCSV (header :: rest) emptyState).isSome
      = true) :
    (readAllCertificateRecordsCSV (header :: rest) emptyState).bind
      (fun st => st.caCertCapabilitiesMap K) =
      lastMatchVal K (rest.filterMap (rowFpEntry idx)) := by
  rw [readAll_cons header rest idx g emptyState hidx] at hrun ⊢
  cases hr : processLines idx emptyState rest with
  | none => rw [hr] at hrun; simp at hrun
  | some st' =>
    have hchar := processLines_caCert idx K rest emptyState st' hr
    show st'.caCertCapabilitiesMap K = _
    rw [hchar]
    cases lastMatchVal K (rest.filterMap (rowFpEntry idx)) <;> rfl

theorem c7_fingerprint_last_row_wins_witness :
    ((findCsvIdx hdr17 = some (idx17, 7)) ∧
     (readAllCertificateRecordsCSV (hdr17 :: [rowDupA, rowDupB])
       emptyState).isSome = true) ∧
    (readAllCertificateRecordsCSV (hdr17 :: [rowDupA, rowDupB]) emptyState).bind
      (fun st => st.caCertCapabilitiesMap (copyToArray32 [204])) =
      lastMatchVal (copyToArray32 [204])
        ([rowDupA, rowDupB].filterMap (rowFpEntry idx17)) :=
  ⟨⟨findCsvIdx_hdr17, by decide⟩,
   c7_fingerprint_last_row_wins hdr17 [rowDupA, rowDupB] idx17 7
     (copyToArray32 [204]) findCsvIdx_hdr17 (by decide)⟩

/-- C5 (counterexample): the SPKI table reader enforces exactly two
fields per record, so one three-field record makes the whole table a
parse error and aborts its ingestion: the fully valid k1 row of this
table ends up absent from the SPKI index — the claim asserts a deviating
field count never aborts either table. -/
theorem c5_table2_field_count_counterexample :
    (recs5.any (fun r => r.length != 2)) = true ∧
    (csvReadAll 2 recs5).isSome = false ∧
    readIssuerSPKIHashCSV recs5 emptyState = some emptyState ∧
    (readIssuerSPKIHashCSV recs5 emptyState).bind
      (fun st => st.issuerSPKISHA256Map "k1") = none := by
  have h : csvReadAll 2 recs5 = none := by decide
  have h2 : readIssuerSPKIHashCSV recs5 emptyState = some emptyState := by
    unfold readIssuerSPKIHashCSV
    rw [h]
  refine ⟨by decide, by decide, h2, ?_⟩
  rw [h2]
  rfl

/-- C5 (amended): tolerance of variable field counts holds for the
capability table, whose reader runs with FieldsPerRecord -1 and accepts
every record list unchanged; the SPKI table reader runs with
FieldsPerRecord 2, and any record with a different field count is a
parse error that aborts that whole table (the state is returned
unchanged, so the SPKI index stays as it was). -/
theorem c5_field_count_amended :
    (∀ records : List (List String), csvReadAll (-1) records = some records) ∧
    (∀ records : List (List String),
      records.all (fun r => r.length == 2) = false →
      readIssuerSPKIHashCSV records emptyState = some emptyState) := by
  constructor
  · exact csvReadAll_neg_one
  · intro records hall
    have hn : csvReadAll 2 records =
        if records.all (fun r => r.length == 2) then some records else none := rfl
    have h : csvReadAll 2 records = none := by
      rw [hn, hall]
      rfl
    unfold readIssuerSPKIHashCSV
    rw [h]

theorem c5_field_count_amended_witness :
    csvReadAll (-1) recs5 = some recs5 ∧
    (recs5.all (fun r => r.length == 2) = false ∧
     readIssuerSPKIHashCSV recs5 emptyState = some emptyState) :=
  ⟨c5_field_count_amended.1 recs5,
   ⟨by decide, c5_field_count_amended.2 recs5 (by decide)⟩⟩

/-- C6: a capability-table row whose fingerprint field is not valid hex
is skipped whole: processing it returns the state unchanged, so it adds
nothing to the fingerprint index or the issuer capability index, and the
loop continues with the remaining rows exactly as if the row were not
there. -/
theorem c6_invalid_hex_row_skipped (idx : Fin 7 → Nat) (st : CcadbState)
    (line : List String) (rest : List (List String)) (ccc : CaCertCapabilities)
    (fpStr : String)
    (hccc : buildCcc idx line = some ccc)
    (hfp : line.get? (idx IDX_SHA256FINGERPRINT) = some fpStr)
    (hhex : hexDecodeString fpStr = none) :
    processLine idx st line = some st ∧
    processLines idx st (line :: rest) = processLines idx st rest := by
  have h1 : processLine idx st line = some st := by
    unfold processLine
    simp only [hccc, hfp, hhex]
  refine ⟨h1, ?_⟩
  simp only [processLines, h1]

theorem c6_invalid_hex_row_skipped_witness :
    (buildCcc idx17 rowBadHex = some cccBad ∧
     rowBadHex.get? (idx17 IDX_SHA256FINGERPRINT) = some "zz" ∧
     hexDecodeString "zz" = none) ∧
    (processLine idx17 emptyState rowBadHex = some emptyState ∧
     processLines idx17 emptyState (rowBadHex :: []) =
       processLines idx17 emptyState []) :=
  ⟨⟨by decide, by decide, by decide⟩,
   c6_invalid_hex_row_skipped idx17 emptyState rowBadHex [] cccBad "zz"
     (by decide) (by decide) (by decide)⟩

/-- C8: over an SPKI table whose records all carry two fields, the SPKI
index at any key identifier holds exactly the 32-byte value of the last
data row with that key whose Base64 field decodes to exactly 32 bytes;
rows with invalid Base64 or a wrong decoded length contribute nothing,
so a key with no surviving row is absent. -/
theorem c8_spki_index_characterization (records : List (List String))
    (k : String) (hfields : ∀ l ∈ records, l.length = 2) :
    (readIssuerSPKIHashCSV records emptyState).bind
      (fun st => st.issuerSPKISHA256Map k) =
      lastMatchVal k (records.tail.filterMap spkiRowEntry) := by
  have hall : records.all (fun r => r.length == 2) = true := by
    rw [List.all_eq_true]
    intro l hl
    simpa using hfields l hl
  have hn : csvReadAll 2 records =
      if records.all (fun r => r.length == 2) then some records else none := rfl
  have hcsv : csvReadAll 2 records = some records := by
    rw [hn, hall]
    rfl
  cases records with
  | nil => rfl
  | cons hdr rest =>
    have hrest : ∀ l ∈ rest, l.length = 2 :=
      fun l hl => hfields l (List.mem_cons_of_mem _ hl)
    obtain ⟨st', hst'⟩ := Option.isSome_iff_exists.mp
      (processSpkiLines_isSome rest emptyState hrest)
    have hread : readIssuerSPKIHashCSV (hdr :: rest) emptyState =
        processSpkiLines emptyState rest := by
      unfold readIssuerSPKIHashCSV
      rw [hcsv]
    rw [hread, hst']
    have hchar := processSpkiLines_spki k rest emptyState st' hst'
    show st'.issuerSPKISHA256Map k = lastMatchVal k (rest.filterMap spkiRowEntry)
    rw [hchar]
    have he : emptyState.issuerSPKISHA256Map k = none := rfl
    rw [he]
    cases lastMatchVal k (rest.filterMap spkiRowEntry) <;> rfl

theorem c8_spki_index_characterization_witness :
    (∀ l ∈ recsC8, l.length = 2) ∧
    (readIssuerSPKIHashCSV recsC8 emptyState).bind
      (fun st => st.issuerSPKISHA256Map "kBad") =
      lastMatchVal "kBad" (recsC8.tail.filterMap spkiRowEntry) :=
  ⟨by decide, c8_spki_index_characterization recsC8 "kBad" (by decide)⟩

/-- C10: a capability-table row whose fingerprint field is valid hex of
a length other than 32 bytes is not skipped: the decoded bytes are
copied into a zero 32-byte array (truncated past 32, zero padded when
shorter) and the row is stored in the fingerprint index under that
padded or truncated key; two distinct short fingerprints agreeing on
their common prefix, such as ab and ab00, produce the same key. -/
theorem c10_fingerprint_pad_truncate (idx : Fin 7 → Nat) (st : CcadbState)
    (line : List String) (ccc : CaCertCapabilities) (fpStr ski : String)
    (bytes : List Nat)
    (hccc : buildCcc idx line = some ccc)
    (hfp : line.get? (idx IDX_SHA256FINGERPRINT) = some fpStr)
    (hhex : hexDecodeString fpStr = some bytes)
    (hlen : bytes.length ≠ 32)
    (hski : line.get? (idx IDX_SUBJECTKEYIDENTIFIER) = some ski) :
    ∃ st', processLine idx st line = some st' ∧
      st'.caCertCapabilitiesMap (copyToArray32 bytes) = some ccc ∧
      copyToArray32 bytes =
        bytes.take 32 ++ List.replicate (32 - bytes.length) 0 ∧
      ∃ b1 b2, hexDecodeString "ab" = some b1 ∧
        hexDecodeString "ab00" = some b2 ∧
        b1 ≠ b2 ∧ copyToArray32 b1 = copyToArray32 b2 := by
  refine ⟨mergeIssuer { st with caCertCapabilitiesMap := mapUpdate st.caCertCapabilitiesMap (copyToArray32 bytes) ccc } ski ccc, ?_, ?_, copyToArray32_eq bytes, ?_⟩
  · unfold processLine
    simp only [hccc, hfp, hhex, hski]
  · rw [mergeIssuer_caCert]
    simp [mapUpdate]
  · exact ⟨[171], [171, 0], by decide, by decide, by decide, by decide⟩

theorem c10_fingerprint_pad_truncate_witness :
    (buildCcc idx17 rowShortHex = some cccShort ∧
     rowShortHex.get? (idx17 IDX_SHA256FINGERPRINT) = some "aabb" ∧
     hexDecodeString "aabb" = some [170, 187] ∧
     ([170, 187] : List Nat).length ≠ 32 ∧
     rowShortHex.get? (idx17 IDX_SUBJECTKEYIDENTIFIER) = some "K9") ∧
    (∃ st', processLine idx17 emptyState rowShortHex = some st' ∧
      st'.caCertCapabilitiesMap (copyToArray32 [170, 187]) = some cccShort ∧
      copyToArray32 [170, 187] =
        ([170, 187] : List Nat).take 32 ++
          List.replicate (32 - ([170, 187] : List Nat).length) 0 ∧
      ∃ b1 b2, hexDecodeString "ab" = some b1 ∧
        hexDecodeString "ab00" = some b2 ∧
        b1 ≠ b2 ∧ copyToArray32 b1 = copyToArray32 b2) :=
  ⟨⟨by decide, by decide, by decide, by decide, by decide⟩,
   c10_fingerprint_pad_truncate idx17 emptyState rowShortHex cccShort "aabb" "K9"
     [170, 187] (by decide) (by decide) (by decide) (by decide) (by decide)⟩
